import Mathlib

/-!
Verification development for the term-structure bootstrapper of this
repository.  The repository's notebooks delegate all curve construction to an
external analytics library; the bootstrapper itself (RateHelper,
InterpolatedCurve, Bootstrapper, and the zero-rate conversions) is therefore
modelled here from the specification.  The fixed-rate-bond pricing example
(`manualBondPrice` / `fixedRateBondNPV`) is embedded from the bond-modeling
notebook source.

Times and quoted values are exact rationals (the examples use Thirty360 year
fractions such as 0.5 and 1.0); curve levels and interpolation are real
valued.
-/

namespace Karuth

noncomputable section

/-- Modelled from the spec: the error taxonomy of §7 (InvalidDateError,
DuplicateMaturityError, DuplicateNodeError, UnsolvableNodeError,
NegativeCashflowError, ExtrapolationError). -/
inductive Err where
  | invalidDate
  | duplicateMaturity
  | duplicateNode
  | unsolvableNode
  | negativeCashflow
  | extrapolationDisabled
  deriving DecidableEq

/-- Modelled from the spec: the interpolation strategy tag of §3.  `linear`
interpolates the discount factor linearly in time, `logLinear` interpolates
`ln DF` linearly in time.  (The spec's third tag, LogCubic, names a
monotone-cubic spline whose concrete algorithm the spec does not state, so it
is not modelled.) -/
inductive Interp where
  | linear
  | logLinear
  deriving DecidableEq

/-- Modelled from the spec: a calibrating instrument (§3).  A deposit carries
its quoted simple rate and its maturity expressed as a day-count year
fraction from the reference date (settlement is on the reference date, so the
accrual fraction τ of the deposit term equals the maturity time).  A bond
carries its quoted price and its ordered cashflow schedule of
(time, amount) pairs, the last amount being final coupon plus redemption. -/
inductive RateHelper where
  | deposit (rate : ℚ) (maturity : ℚ)
  | bond (price : ℚ) (cashflows : List (ℚ × ℚ))

/-- Modelled from the spec: `maturityTime()` (§4.1) — the year fraction from
the reference date to the instrument's maturity.  For a bond this is the date
of its last cashflow. -/
def maturityTime : RateHelper → ℚ
  | .deposit _ m => m
  | .bond _ cfs => ((cfs.getLast?.map Prod.fst).getD 0)

/-- The cashflows of a helper that precede its own maturity node (empty for a
deposit). -/
def interCashflows : RateHelper → List (ℚ × ℚ)
  | .deposit _ _ => []
  | .bond _ cfs => cfs.dropLast

/-- The final cashflow amount of a bond schedule (`CF_last` in §4.1). -/
def lastCF (cfs : List (ℚ × ℚ)) : ℚ :=
  (cfs.getLast?.map Prod.snd).getD 0

/-- Modelled from the spec: the InterpolatedCurve data container (§3, §4.2) —
an interpolation strategy tag plus an ordered sequence of
(time, discount-factor) knots.  The reference node `(0, 1)` is the first
knot. -/
structure Curve where
  itp : Interp
  nodes : List (ℚ × ℝ)

/-- The curve holding only the reference node `(0, 1)` (§4.3 step 2). -/
def initCurve (itp : Interp) : Curve := ⟨itp, [(0, 1)]⟩

/-- Time of the last knot (0 for an empty knot list). -/
def lastTime (ns : List (ℚ × ℝ)) : ℚ :=
  ((ns.getLast?.map Prod.fst).getD 0)

/-- Modelled from the spec: interpolation between two bracketing knots
(§4.2).  `linear` interpolates the discount factor itself; `logLinear`
interpolates `ln DF` linearly in `t`. -/
def interpAt : Interp → ℚ → ℝ → ℚ → ℝ → ℚ → ℝ
  | .linear, t1, d1, t2, d2, t => d1 + (((t - t1) / (t2 - t1) : ℚ) : ℝ) * (d2 - d1)
  | .logLinear, t1, d1, t2, d2, t =>
      Real.exp (Real.log d1 + (((t - t1) / (t2 - t1) : ℚ) : ℝ) * (Real.log d2 - Real.log d1))

/-- Modelled from the spec: extrapolation beyond the last knot is flat in the
continuously-compounded zero rate (§4.2), i.e. `DF(t) = DF(tN) ^ (t / tN)`. -/
def extrapAt (t1 : ℚ) (d1 : ℝ) (t : ℚ) : ℝ :=
  d1 ^ (((t / t1 : ℚ) : ℝ))

/-- Modelled from the spec: `discountFactor(t)` over a knot list (§4.2).  For
`t` at or below the first knot the first knot's value is returned (the first
knot is the reference node `(0, 1)`); between knots the configured strategy
interpolates; beyond the last knot the flat-zero-rate extrapolation is
used. -/
def dfNodes (itp : Interp) : List (ℚ × ℝ) → ℚ → ℝ
  | [], _ => 1
  | [(t1, d1)], t => if t ≤ t1 then d1 else extrapAt t1 d1 t
  | (t1, d1) :: (t2, d2) :: rest, t =>
      if t ≤ t1 then d1
      else if t ≤ t2 then interpAt itp t1 d1 t2 d2 t
      else dfNodes itp ((t2, d2) :: rest) t

/-- Discount factor query of a curve. -/
def discountFactor (c : Curve) (t : ℚ) : ℝ :=
  dfNodes c.itp c.nodes t

/-- Modelled from the spec: `appendNode` insertion into the knot list keeping
ascending time order, failing with `DuplicateNodeError` on a time collision
(§4.2). -/
def insertNode : List (ℚ × ℝ) → ℚ → ℝ → Except Err (List (ℚ × ℝ))
  | [], t, d => .ok [(t, d)]
  | (t1, d1) :: rest, t, d =>
      if t = t1 then .error .duplicateNode
      else if t < t1 then .ok ((t, d) :: (t1, d1) :: rest)
      else (insertNode rest t d).map fun r => (t1, d1) :: r

/-- Modelled from the spec: `appendNode(t, df)` (§4.2). -/
def appendNode (c : Curve) (t : ℚ) (d : ℝ) : Except Err Curve :=
  (insertNode c.nodes t d).map fun ns => ⟨c.itp, ns⟩

/-- Present value of the non-final cashflows against the curve built so far
(the Σ term of the §4.1 residual). -/
def pvInter (c : Curve) (cfs : List (ℚ × ℚ)) : ℝ :=
  (cfs.dropLast.map fun ta => (ta.2 : ℝ) * discountFactor c ta.1).sum

/-- Modelled from the spec: the bond residual function of §4.1,
`f(DF_T) = price_quoted − Σ_{i<last} CF_i·DF(t_i; curveSoFar) − CF_last·DF_T`,
with `DF_T` the free unknown. -/
def bondResidualFn (c : Curve) (price : ℚ) (cfs : List (ℚ × ℚ)) (x : ℝ) : ℝ :=
  (price : ℝ) - pvInter c cfs - (lastCF cfs : ℝ) * x

/-- Modelled from the spec: per-node solve (§4.1, §4.3 step 3).  A deposit
contributes its node discount factor in closed form, `1 / (1 + rate·τ)`.  A
bond's residual is linear in the unknown `DF_T` with coefficient `−CF_last`,
so the node solves directly to `(price − Σ CF_i·DF(t_i)) / CF_last`; a
non-positive final cashflow raises `NegativeCashflowError` and a solution
outside the `[1e-6, 10]` bracket of the root-find raises
`UnsolvableNodeError`. -/
def solveNode (c : Curve) : RateHelper → Except Err ℝ
  | .deposit r m =>
      if 1 + r * m ≤ 0 then .error .unsolvableNode
      else .ok (((1 + r * m)⁻¹ : ℚ) : ℝ)
  | .bond p cfs =>
      if lastCF cfs ≤ 0 then .error .negativeCashflow
      else
        let dfStar : ℝ := ((p : ℝ) - pvInter c cfs) / (lastCF cfs : ℝ)
        if dfStar < 1e-6 ∨ 10 < dfStar then .error .unsolvableNode
        else .ok dfStar

/-- Modelled from the spec: the node-by-node loop of §4.3 step 3: solve each
helper's discount factor against the curve built so far and append the
resulting node. -/
def go (c : Curve) : List RateHelper → Except Err Curve
  | [] => .ok c
  | h :: rest => do
      let df ← solveNode c h
      let c' ← appendNode c (maturityTime h) df
      go c' rest

/-- Modelled from the spec: §4.3 step 1 — helpers sorted by ascending
maturity time. -/
def sortHelpers (hs : List RateHelper) : List RateHelper :=
  List.insertionSort (fun a b => maturityTime a ≤ maturityTime b) hs

/-- Modelled from the spec: the Bootstrapper (§4.3).  Maturities not after
the reference date fail with `InvalidDateError`; two helpers resolving to the
same maturity time fail with `DuplicateMaturityError`; otherwise the helpers
are processed in ascending maturity order starting from the reference
curve. -/
def bootstrap (itp : Interp) (hs : List RateHelper) : Except Err Curve :=
  if ¬ (∀ h ∈ hs, 0 < maturityTime h) then .error .invalidDate
  else if ¬ (hs.map maturityTime).Nodup then .error .duplicateMaturity
  else go (initCurve itp) (sortHelpers hs)

/-- Modelled from the spec: the repricing residual of a helper against a
curve, in price units, oriented as market price minus model price (§4.1, §8).
For a deposit this is `1 − (1 + rate·τ)·DF(T)`; for a bond it is the §4.1
residual evaluated at the curve's own discount factor,
`price − Σ CF_i·DF(t_i)` over all cashflows. -/
def residual (h : RateHelper) (c : Curve) : ℝ :=
  match h with
  | .deposit r m => 1 - ((1 + r * m : ℚ) : ℝ) * discountFactor c m
  | .bond p cfs => (p : ℝ) - (cfs.map fun ta => (ta.2 : ℝ) * discountFactor c ta.1).sum

/-- Modelled from the spec: `zeroRate(t, continuous)` (§4.2) — the
continuously-compounded zero rate solving `DF = e^{−r·t}`, read off as
`r = −ln(DF(t)) / t`.  (Real division by zero yields zero, so the query is
defined, and zero, at `t = 0`.) -/
def zeroRateContinuous (c : Curve) (t : ℚ) : ℝ :=
  - Real.log (discountFactor c t) / (t : ℝ)

/-- Modelled from the spec: `zeroRate(t, compounded, f)` (§4.2) — the zero
rate solving `DF = (1 + r/f)^(−f·t)`, read off as
`r = f·(DF(t)^(−1/(f·t)) − 1)`.  (Real division by zero yields zero, so the
query is defined, and zero, at `t = 0`.) -/
def zeroRateCompounded (c : Curve) (f : ℚ) (t : ℚ) : ℝ :=
  (f : ℝ) * (discountFactor c t ^ (-(1 / ((f : ℝ) * (t : ℝ)))) - 1)

/-- Modelled from the spec: the bounded 1-D bisection root-find of §4.1/§4.3,
returning the root together with the number of iterations performed.  Each
iteration bisects the bracket, accepts the midpoint once the price residual
is inside the tolerance, and the fuel cap turns exhaustion into
`UnsolvableNodeError`. -/
def bisect (f : ℝ → ℝ) (tol : ℝ) : ℕ → ℝ → ℝ → Except Err (ℝ × ℕ)
  | 0, _, _ => .error .unsolvableNode
  | fuel + 1, lo, hi =>
      let mid := (lo + hi) / 2
      if |f mid| < tol then .ok (mid, 1)
      else if f lo * f mid ≤ 0 then
        match bisect f tol fuel lo mid with
        | .ok (x, k) => .ok (x, k + 1)
        | .error e => .error e
      else
        match bisect f tol fuel mid hi with
        | .ok (x, k) => .ok (x, k + 1)
        | .error e => .error e

/-- Modelled from the spec: the general per-node solve — bracket the sign
change within discount factors `[1e-6, 10]` and bisect with tolerance
`1e-10` and an iteration cap of 100, signalling `UnsolvableNodeError` when
bracketing fails or the cap is reached (§4.1, §4.3 step 3b). -/
def solveByBisection (f : ℝ → ℝ) : Except Err (ℝ × ℕ) :=
  if f 1e-6 * f 10 ≤ 0 then bisect f 1e-10 100 1e-6 10
  else .error .unsolvableNode

/-- Curves reachable from a reference curve by successful `appendNode`
operations — the lifecycle of §3 (created with only the reference node, grown
one node at a time). -/
inductive Built : Curve → Prop where
  | base (itp : Interp) : Built (initCurve itp)
  | grow {c : Curve} {t : ℚ} {d : ℝ} {c' : Curve} :
      Built c → appendNode c t d = .ok c' → Built c'

/-- The linearly interpolated zero rate of the bond-modeling notebook's spot
curve: knots (0, 0.0), (0.5, 0.005), (1.0, 0.007) under Thirty360 year
fractions, linear interpolation on the zero rate. -/
def spotZeroRate (t : ℝ) : ℝ :=
  if t ≤ 1 / 2 then 0 + (t - 0) / (1 / 2 - 0) * (0.005 - 0)
  else 0.005 + (t - 1 / 2) / (1 - 1 / 2) * (0.007 - 0.005)

/-- Discount factor of the notebook's spot curve under annual compounding:
`DF(t) = (1 + z(t))^(−t)`. -/
def spotDF (t : ℝ) : ℝ :=
  (1 + spotZeroRate t) ^ (-t)

/-- The notebook's closed-form bond price,
`3/pow(1 + 0.005, 0.5) + (100 + 3)/(1 + 0.007)`. -/
def manualBondPrice : ℝ :=
  3 / (1 + 0.005) ^ ((0.5 : ℝ)) + (100 + 3) / (1 + 0.007)

/-- The coupon of the notebook's fixed-rate bond: face 100, 6% annual rate,
semiannual schedule, Thirty360 accrual fraction 0.5 per period. -/
def couponAmount : ℝ := 100 * 0.06 * (1 / 2)

/-- The notebook's `FixedRateBond.NPV()` under the discounting engine: the
bond's cashflows (coupon at 0.5y, coupon plus face at 1.0y) discounted off
the spot curve. -/
def fixedRateBondNPV : ℝ :=
  couponAmount * spotDF (1 / 2) + (100 + couponAmount) * spotDF 1

/-- Ordering of curve knots by time. -/
def NodeLT (a b : ℚ × ℝ) : Prop := a.1 < b.1

/-- Ordering of helpers by maturity time. -/
def HelperLT (a b : RateHelper) : Prop := maturityTime a < maturityTime b

/-- The spec's concrete deposit scenario (§8): a 6-month deposit quoted at
5.25% and a 12-month deposit quoted at 5.5%, Thirty360 year fractions. -/
def exDeposits : List RateHelper :=
  [.deposit (21/400) (1/2), .deposit (11/200) 1]

/-- The curve the deposit scenario bootstraps to: node discount factors
`1/1.02625 = 800/821` and `1/1.055 = 200/211`. -/
def exCurve (itp : Interp) : Curve :=
  ⟨itp, [(0, 1), (1/2, ((800/821 : ℚ) : ℝ)), (1, ((200/211 : ℚ) : ℝ))]⟩

/-- A deposit plus a one-year 6%-coupon bond whose intermediate cashflow
falls exactly on the deposit node. -/
def witHelpers : List RateHelper :=
  [.deposit (21/400) (1/2), .bond 100 [(1/2, 3), (1, 103)]]

/-- The curve `witHelpers` bootstraps to. -/
def witCurve : Curve :=
  ⟨.linear, [(0, 1), (1/2, ((800/821 : ℚ) : ℝ)), (1, ((79700/84563 : ℚ) : ℝ))]⟩

/-- A 3-month deposit plus a one-year bond whose intermediate cashflow at
6 months lies beyond every earlier node: during the solve that cashflow is
discounted by extrapolation, afterwards by interpolation. -/
def cexHelpers : List RateHelper :=
  [.deposit (1/25) (1/4), .bond 100 [(1/2, 3), (1, 103)]]

/-- The curve `cexHelpers` bootstraps to (under linear interpolation). -/
def cexCurve : Curve :=
  ⟨.linear, [(0, 1), (1/4, ((100/101 : ℚ) : ℝ)), (1, ((990100/1050703 : ℚ) : ℝ))]⟩

end

instance : IsTotal RateHelper (fun a b => maturityTime a ≤ maturityTime b) :=
  ⟨fun _ _ => le_total _ _⟩

instance : IsTrans RateHelper (fun a b => maturityTime a ≤ maturityTime b) :=
  ⟨fun _ _ _ h1 h2 => le_trans h1 h2⟩

theorem lastTime_nil : lastTime [] = 0 := rfl

theorem lastTime_single (t : ℚ) (d : ℝ) : lastTime [(t, d)] = t := rfl

theorem lastTime_cons_cons (a b : ℚ × ℝ) (l : List (ℚ × ℝ)) :
    lastTime (a :: b :: l) = lastTime (b :: l) := by
  simp [lastTime, List.getLast?_cons_cons]

theorem lastTime_concat (ns : List (ℚ × ℝ)) (t : ℚ) (d : ℝ) :
    lastTime (ns ++ [(t, d)]) = t := by
  simp [lastTime, List.getLast?_concat]

theorem times_le_lastTime :
    ∀ ns : List (ℚ × ℝ), List.Pairwise NodeLT ns → ∀ nd ∈ ns, nd.1 ≤ lastTime ns
  | [], _, nd, hmem => by simp at hmem
  | [a], _, nd, hmem => by
      simp at hmem
      subst hmem
      simp [lastTime]
  | a :: b :: l, hp, nd, hmem => by
      rw [lastTime_cons_cons]
      rcases List.mem_cons.mp hmem with heq | hmem2
      · subst heq
        have hab : NodeLT nd b := (List.pairwise_cons.mp hp).1 b (List.mem_cons_self b l)
        exact le_trans hab.le (times_le_lastTime (b :: l) (List.pairwise_cons.mp hp).2 b
          (List.mem_cons_self b l))
      · exact times_le_lastTime (b :: l) (List.pairwise_cons.mp hp).2 nd hmem2

theorem interpAt_self_right (itp : Interp) (t1 t2 : ℚ) (d1 d2 : ℝ)
    (hne : t1 ≠ t2) (hd2 : 0 < d2) : interpAt itp t1 d1 t2 d2 t2 = d2 := by
  have h21 : t2 - t1 ≠ 0 := sub_ne_zero.mpr (Ne.symm hne)
  cases itp with
  | linear =>
      simp only [interpAt, div_self h21, Rat.cast_one, one_mul]
      ring
  | logLinear =>
      simp only [interpAt, div_self h21, Rat.cast_one, one_mul]
      rw [show Real.log d1 + (Real.log d2 - Real.log d1) = Real.log d2 by ring,
        Real.exp_log hd2]

theorem dfNodes_knot (itp : Interp) :
    ∀ ns : List (ℚ × ℝ), List.Pairwise NodeLT ns →
      ∀ t d, (t, d) ∈ ns → 0 < d → dfNodes itp ns t = d
  | [], _, t, d, hmem, _ => by simp at hmem
  | [(t1, d1)], _, t, d, hmem, _ => by
      simp at hmem
      obtain ⟨ht, hd⟩ := hmem
      subst ht; subst hd
      simp [dfNodes]
  | (t1, d1) :: (t2, d2) :: rest, hp, t, d, hmem, hd => by
      rcases List.mem_cons.mp hmem with heq | hmem2
      · obtain ⟨ht, hdd⟩ := Prod.mk.injEq .. ▸ heq
        subst ht; subst hdd
        simp [dfNodes]
      · have ht1t : t1 < t := (List.pairwise_cons.mp hp).1 (t, d) hmem2
        have hp2 : List.Pairwise NodeLT ((t2, d2) :: rest) := (List.pairwise_cons.mp hp).2
        rw [dfNodes, if_neg (not_le.mpr ht1t)]
        rcases List.mem_cons.mp hmem2 with heq2 | hmem3
        · obtain ⟨ht, hdd⟩ := Prod.mk.injEq .. ▸ heq2
          subst ht; subst hdd
          rw [if_pos le_rfl]
          exact interpAt_self_right itp t1 t d1 d (ne_of_lt ht1t) hd
        · have ht2t : t2 < t := (List.pairwise_cons.mp hp2).1 (t, d) hmem3
          rw [if_neg (not_le.mpr ht2t)]
          exact dfNodes_knot itp ((t2, d2) :: rest) hp2 t d (List.mem_cons_of_mem _ hmem3) hd

theorem dfNodes_pos (itp : Interp) :
    ∀ ns : List (ℚ × ℝ), List.Pairwise NodeLT ns → (∀ nd ∈ ns, (0 : ℝ) < nd.2) →
      ∀ t, 0 < dfNodes itp ns t
  | [], _, _, t => by simp [dfNodes]
  | [(t1, d1)], _, hpos, t => by
      have hd1 : (0 : ℝ) < d1 := hpos (t1, d1) (List.mem_singleton_self _)
      rw [dfNodes]
      split
      · exact hd1
      · exact Real.rpow_pos_of_pos hd1 _
  | (t1, d1) :: (t2, d2) :: rest, hp, hpos, t => by
      have hd1 : (0 : ℝ) < d1 := hpos (t1, d1) (List.mem_cons_self _ _)
      have hd2 : (0 : ℝ) < d2 := hpos (t2, d2) (List.mem_cons_of_mem _ (List.mem_cons_self _ _))
      have ht12 : t1 < t2 :=
        (List.pairwise_cons.mp hp).1 (t2, d2) (List.mem_cons_self _ _)
      rw [dfNodes]
      split
      · exact hd1
      · split
        · rename_i hgt1 hle2
          push_neg at hgt1
          cases itp with
          | logLinear => exact Real.exp_pos _
          | linear =>
              have hθpos : (0 : ℚ) < (t - t1) / (t2 - t1) :=
                div_pos (by linarith) (by linarith)
              have hθle : ((t - t1) / (t2 - t1) : ℚ) ≤ 1 :=
                (div_le_one (by linarith)).mpr (by linarith)
              have hθposR : (0 : ℝ) < (((t - t1) / (t2 - t1) : ℚ) : ℝ) := by
                exact_mod_cast hθpos
              have hθleR : ((((t - t1) / (t2 - t1) : ℚ)) : ℝ) ≤ 1 := by
                exact_mod_cast hθle
              simp only [interpAt]
              nlinarith [mul_nonneg (sub_nonneg.mpr hθleR) hd1.le, mul_pos hθposR hd2]
        · exact dfNodes_pos itp ((t2, d2) :: rest) (List.pairwise_cons.mp hp).2
            (fun nd hnd => hpos nd (List.mem_cons_of_mem _ hnd)) t

theorem dfNodes_append_of_le (itp : Interp) :
    ∀ ns : List (ℚ × ℝ), ns ≠ [] → ∀ (T : ℚ) (D : ℝ) (t : ℚ),
      t ≤ lastTime ns → dfNodes itp (ns ++ [(T, D)]) t = dfNodes itp ns t
  | [], hne, _, _, _, _ => absurd rfl hne
  | [(t1, d1)], _, T, D, t, hle => by
      rw [lastTime_single] at hle
      simp only [List.cons_append, List.nil_append]
      rw [dfNodes, if_pos hle, dfNodes, if_pos hle]
  | (t1, d1) :: (t2, d2) :: rest, _, T, D, t, hle => by
      rw [lastTime_cons_cons] at hle
      simp only [List.cons_append]
      rw [dfNodes]
      by_cases h1 : t ≤ t1
      · rw [if_pos h1, dfNodes, if_pos h1]
      · rw [if_neg h1]
        by_cases h2 : t ≤ t2
        · rw [if_pos h2, dfNodes, if_neg h1, if_pos h2]
        · rw [if_neg h2, dfNodes, if_neg h1, if_neg h2]
          exact dfNodes_append_of_le itp ((t2, d2) :: rest) (List.cons_ne_nil _ _) T D t hle

theorem insertNode_atEnd :
    ∀ ns : List (ℚ × ℝ), List.Pairwise NodeLT ns → ∀ (T : ℚ) (D : ℝ),
      lastTime ns < T → insertNode ns T D = .ok (ns ++ [(T, D)])
  | [], _, T, D, _ => rfl
  | (t1, d1) :: rest, hp, T, D, hlt => by
      have ht1 : t1 < T :=
        lt_of_le_of_lt (times_le_lastTime _ hp (t1, d1) (List.mem_cons_self _ _)) hlt
      rw [insertNode, if_neg (ne_of_gt ht1), if_neg (not_lt.mpr ht1.le)]
      cases rest with
      | nil => rfl
      | cons b l =>
          rw [lastTime_cons_cons] at hlt
          rw [insertNode_atEnd (b :: l) (List.pairwise_cons.mp hp).2 T D hlt]
          rfl

theorem insertNode_ok_perm :
    ∀ ns : List (ℚ × ℝ), ∀ (t : ℚ) (d : ℝ) (ns' : List (ℚ × ℝ)),
      List.Pairwise NodeLT ns → insertNode ns t d = .ok ns' →
      ns'.Perm ((t, d) :: ns) ∧ List.Pairwise NodeLT ns'
  | [], t, d, ns', _, hok => by
      simp only [insertNode, Except.ok.injEq] at hok
      subst hok
      exact ⟨List.Perm.refl _, List.pairwise_singleton _ _⟩
  | (t1, d1) :: rest, t, d, ns', hp, hok => by
      rw [insertNode] at hok
      by_cases he : t = t1
      · rw [if_pos he] at hok; exact absurd hok (by simp)
      · rw [if_neg he] at hok
        by_cases hl : t < t1
        · rw [if_pos hl] at hok
          simp only [Except.ok.injEq] at hok
          subst hok
          refine ⟨List.Perm.refl _, List.pairwise_cons.mpr ⟨?_, hp⟩⟩
          intro b hb
          rcases List.mem_cons.mp hb with hb1 | hb2
          · subst hb1; exact hl
          · exact lt_trans hl ((List.pairwise_cons.mp hp).1 b hb2)
        · rw [if_neg hl] at hok
          have ht1t : t1 < t := lt_of_le_of_ne (not_lt.mp hl) (Ne.symm he)
          cases hrec : insertNode rest t d with
          | error e => rw [hrec] at hok; exact absurd hok (by simp [Except.map])
          | ok r =>
              rw [hrec] at hok
              simp only [Except.map, Except.ok.injEq] at hok
              subst hok
              obtain ⟨hperm, hpr⟩ :=
                insertNode_ok_perm rest t d r (List.pairwise_cons.mp hp).2 hrec
              constructor
              · exact (hperm.cons (t1, d1)).trans (List.Perm.swap _ _ _)
              · refine List.pairwise_cons.mpr ⟨?_, hpr⟩
                intro b hb
                have hb' : b ∈ (t, d) :: rest := hperm.mem_iff.mp hb
                rcases List.mem_cons.mp hb' with hb1 | hb2
                · subst hb1; exact ht1t
                · exact (List.pairwise_cons.mp hp).1 b hb2

theorem solveNode_ok_pos (c : Curve) (h : RateHelper) (df : ℝ)
    (hok : solveNode c h = .ok df) : 0 < df := by
  cases h with
  | deposit r m =>
      rw [solveNode] at hok
      by_cases hg : 1 + r * m ≤ 0
      · rw [if_pos hg] at hok; exact absurd hok (by simp)
      · rw [if_neg hg] at hok
        simp only [Except.ok.injEq] at hok
        subst hok
        have : (0 : ℚ) < (1 + r * m)⁻¹ := inv_pos.mpr (not_le.mp hg)
        exact_mod_cast this
  | bond p cfs =>
      rw [solveNode] at hok
      by_cases hg : lastCF cfs ≤ 0
      · rw [if_pos hg] at hok; exact absurd hok (by simp)
      · rw [if_neg hg] at hok
        simp only at hok
        by_cases hb : ((p : ℝ) - pvInter c cfs) / (lastCF cfs : ℝ) < 1e-6 ∨
            10 < ((p : ℝ) - pvInter c cfs) / (lastCF cfs : ℝ)
        · rw [if_pos hb] at hok; exact absurd hok (by simp)
        · rw [if_neg hb] at hok
          simp only [Except.ok.injEq] at hok
          subst hok
          push_neg at hb
          linarith [hb.1]

theorem solveNode_deposit_ok (c : Curve) (r m : ℚ) (df : ℝ)
    (hok : solveNode c (.deposit r m) = .ok df) :
    0 < 1 + r * m ∧ df = (((1 + r * m)⁻¹ : ℚ) : ℝ) := by
  rw [solveNode] at hok
  by_cases hg : 1 + r * m ≤ 0
  · rw [if_pos hg] at hok; exact absurd hok (by simp)
  · rw [if_neg hg] at hok
    simp only [Except.ok.injEq] at hok
    exact ⟨not_le.mp hg, hok.symm⟩

theorem solveNode_bond_ok (c : Curve) (p : ℚ) (cfs : List (ℚ × ℚ)) (df : ℝ)
    (hok : solveNode c (.bond p cfs) = .ok df) :
    0 < lastCF cfs ∧ cfs ≠ [] ∧
      df = ((p : ℝ) - pvInter c cfs) / (lastCF cfs : ℝ) ∧
      1e-6 ≤ df ∧ df ≤ 10 := by
  rw [solveNode] at hok
  by_cases hg : lastCF cfs ≤ 0
  · rw [if_pos hg] at hok; exact absurd hok (by simp)
  · rw [if_neg hg] at hok
    simp only at hok
    by_cases hb : ((p : ℝ) - pvInter c cfs) / (lastCF cfs : ℝ) < 1e-6 ∨
        10 < ((p : ℝ) - pvInter c cfs) / (lastCF cfs : ℝ)
    · rw [if_pos hb] at hok; exact absurd hok (by simp)
    · rw [if_neg hb] at hok
      simp only [Except.ok.injEq] at hok
      push_neg at hb
      refine ⟨not_le.mp hg, ?_, hok.symm, hok ▸ hb.1, hok ▸ hb.2⟩
      intro hnil
      rw [hnil] at hg
      exact hg (le_refl 0)

theorem go_ok :
    ∀ (pending : List RateHelper) (c cf : Curve),
      go c pending = .ok cf →
      List.Pairwise NodeLT c.nodes →
      c.nodes ≠ [] →
      (∀ nd ∈ c.nodes, (0 : ℝ) < nd.2) →
      (∀ h ∈ pending, lastTime c.nodes < maturityTime h) →
      List.Pairwise HelperLT pending →
      cf.itp = c.itp ∧
      List.Pairwise NodeLT cf.nodes ∧
      cf.nodes ≠ [] ∧
      (∀ nd ∈ cf.nodes, (0 : ℝ) < nd.2) ∧
      cf.nodes.map Prod.fst = c.nodes.map Prod.fst ++ pending.map maturityTime ∧
      lastTime c.nodes ≤ lastTime cf.nodes ∧
      (∀ t : ℚ, t ≤ lastTime c.nodes → discountFactor cf t = discountFactor c t)
  | [], c, cf, hok, hpc, hne, hpos, _, _ => by
      rw [go] at hok
      simp only [Except.ok.injEq] at hok
      subst hok
      exact ⟨rfl, hpc, hne, hpos, by simp, le_rfl, fun t _ => rfl⟩
  | h :: rest, c, cf, hok, hpc, hne, hpos, hpend, hpw => by
      have hT : lastTime c.nodes < maturityTime h := hpend h (List.mem_cons_self _ _)
      rw [go] at hok
      cases hsol : solveNode c h with
      | error e => rw [hsol] at hok; exact absurd hok (by simp [bind, Except.bind])
      | ok df =>
          rw [hsol] at hok
          simp only [bind, Except.bind] at hok
          have happ : appendNode c (maturityTime h) df =
              .ok ⟨c.itp, c.nodes ++ [(maturityTime h, df)]⟩ := by
            rw [appendNode, insertNode_atEnd c.nodes hpc (maturityTime h) df hT]
            rfl
          rw [happ] at hok
          simp only at hok
          set c' : Curve := ⟨c.itp, c.nodes ++ [(maturityTime h, df)]⟩ with hc'
          have hp' : List.Pairwise NodeLT c'.nodes := by
            refine List.pairwise_append.mpr ⟨hpc, List.pairwise_singleton _ _, ?_⟩
            intro a ha b hb
            rw [List.mem_singleton] at hb
            subst hb
            exact lt_of_le_of_lt (times_le_lastTime c.nodes hpc a ha) hT
          have hne' : c'.nodes ≠ [] := by
            simp [hc']
          have hpos' : ∀ nd ∈ c'.nodes, (0 : ℝ) < nd.2 := by
            intro nd hnd
            rcases List.mem_append.mp hnd with hold | hnew
            · exact hpos nd hold
            · rw [List.mem_singleton] at hnew
              subst hnew
              exact solveNode_ok_pos c h df hsol
          have hlast' : lastTime c'.nodes = maturityTime h := lastTime_concat _ _ _
          have hpend' : ∀ h' ∈ rest, lastTime c'.nodes < maturityTime h' := by
            intro h' hh'
            rw [hlast']
            exact (List.pairwise_cons.mp hpw).1 h' hh'
          obtain ⟨hitp, hpf, hnef, hposf, hmapf, hlastf, hlocf⟩ :=
            go_ok rest c' cf hok hp' hne' hpos' hpend' (List.pairwise_cons.mp hpw).2
          refine ⟨hitp, hpf, hnef, hposf, ?_, ?_, ?_⟩
          · rw [hmapf]
            simp [hc']
          · rw [hlast'] at hlastf
            exact le_trans hT.le hlastf
          · intro t ht
            have h1 : discountFactor cf t = discountFactor c' t :=
              hlocf t (by rw [hlast']; exact le_trans ht hT.le)
            rw [h1]
            show dfNodes c.itp (c.nodes ++ [(maturityTime h, df)]) t = dfNodes c.itp c.nodes t
            exact dfNodes_append_of_le c.itp c.nodes hne (maturityTime h) df t ht

theorem mem_sortHelpers {hs : List RateHelper} {h : RateHelper} :
    h ∈ sortHelpers hs ↔ h ∈ hs :=
  (List.perm_insertionSort _ hs).mem_iff

theorem sortHelpers_pairwise (hs : List RateHelper)
    (hnd : (hs.map maturityTime).Nodup) :
    List.Pairwise HelperLT (sortHelpers hs) := by
  have hsorted : List.Pairwise (fun a b => maturityTime a ≤ maturityTime b) (sortHelpers hs) :=
    List.sorted_insertionSort _ hs
  have hperm : (sortHelpers hs).Perm hs := List.perm_insertionSort _ hs
  have hnd2 : ((sortHelpers hs).map maturityTime).Nodup :=
    ((hperm.map maturityTime).nodup_iff).mpr hnd
  have hpne : (sortHelpers hs).Pairwise (fun a b => maturityTime a ≠ maturityTime b) :=
    List.pairwise_map.mp hnd2
  exact (hsorted.and hpne).imp fun hab => lt_of_le_of_ne hab.1 hab.2

theorem bootstrap_ok_elim (itp : Interp) (hs : List RateHelper) (c : Curve)
    (hok : bootstrap itp hs = .ok c) :
    (∀ h ∈ hs, 0 < maturityTime h) ∧ (hs.map maturityTime).Nodup ∧
      go (initCurve itp) (sortHelpers hs) = .ok c := by
  rw [bootstrap] at hok
  by_cases h1 : ∀ h ∈ hs, 0 < maturityTime h
  · rw [if_neg (not_not_intro h1)] at hok
    by_cases h2 : (hs.map maturityTime).Nodup
    · rw [if_neg (not_not_intro h2)] at hok
      exact ⟨h1, h2, hok⟩
    · rw [if_pos h2] at hok
      exact absurd hok (by simp)
  · rw [if_pos h1] at hok
    exact absurd hok (by simp)

theorem bootstrap_ok_spec (itp : Interp) (hs : List RateHelper) (c : Curve)
    (hok : bootstrap itp hs = .ok c) :
    c.itp = itp ∧ List.Pairwise NodeLT c.nodes ∧ c.nodes ≠ [] ∧
      (∀ nd ∈ c.nodes, (0 : ℝ) < nd.2) ∧
      c.nodes.map Prod.fst = 0 :: (sortHelpers hs).map maturityTime ∧
      (∀ h ∈ hs, 0 < maturityTime h) ∧ (hs.map maturityTime).Nodup := by
  obtain ⟨hval, hnd, hgo⟩ := bootstrap_ok_elim itp hs c hok
  have hpend : ∀ h ∈ sortHelpers hs, lastTime (initCurve itp).nodes < maturityTime h := by
    intro h hh
    have h0 : lastTime (initCurve itp).nodes = 0 := rfl
    rw [h0]
    exact hval h (mem_sortHelpers.mp hh)
  obtain ⟨hitp, hp, hnef, hposf, hmapf, _, _⟩ :=
    go_ok (sortHelpers hs) (initCurve itp) c hgo
      (List.pairwise_singleton _ _) (by simp [initCurve])
      (by intro nd hnd2; simp [initCurve] at hnd2; simp [hnd2]) hpend
      (sortHelpers_pairwise hs hnd)
  refine ⟨hitp, hp, hnef, hposf, ?_, hval, hnd⟩
  rw [hmapf]
  simp [initCurve]

theorem go_built :
    ∀ (pending : List RateHelper) (c cf : Curve),
      Built c → go c pending = .ok cf → Built cf
  | [], c, cf, hb, hok => by
      rw [go] at hok
      simp only [Except.ok.injEq] at hok
      subst hok
      exact hb
  | h :: rest, c, cf, hb, hok => by
      rw [go] at hok
      cases hsol : solveNode c h with
      | error e => rw [hsol] at hok; exact absurd hok (by simp [bind, Except.bind])
      | ok df =>
          rw [hsol] at hok
          simp only [bind, Except.bind] at hok
          cases happ : appendNode c (maturityTime h) df with
          | error e => rw [happ] at hok; exact absurd hok (by simp)
          | ok c' =>
              rw [happ] at hok
              simp only at hok
              exact go_built rest c' cf (hb.grow happ) hok

theorem built_inv (c : Curve) (hb : Built c) :
    List.Pairwise NodeLT c.nodes ∧ ((0 : ℚ), (1 : ℝ)) ∈ c.nodes := by
  induction hb with
  | base itp => exact ⟨List.pairwise_singleton _ _, by simp [initCurve]⟩
  | @grow c0 t d c' hbc happ ih =>
      rw [appendNode] at happ
      cases hins : insertNode c0.nodes t d with
      | error e => rw [hins] at happ; exact absurd happ (by simp [Except.map])
      | ok ns' =>
          rw [hins] at happ
          simp only [Except.map, Except.ok.injEq] at happ
          obtain ⟨hperm, hpw⟩ := insertNode_ok_perm c0.nodes t d ns' ih.1 hins
          have hmem : ((0 : ℚ), (1 : ℝ)) ∈ ns' :=
            hperm.mem_iff.mpr (List.mem_cons_of_mem _ ih.2)
          rw [← happ]
          exact ⟨hpw, hmem⟩

theorem maturity_bond_getLast (p : ℚ) (cfs : List (ℚ × ℚ)) (h : cfs ≠ []) :
    maturityTime (.bond p cfs) = (cfs.getLast h).1 := by
  rw [maturityTime, List.getLast?_eq_getLast cfs h]
  rfl

theorem lastCF_getLast (cfs : List (ℚ × ℚ)) (h : cfs ≠ []) :
    lastCF cfs = (cfs.getLast h).2 := by
  rw [lastCF, List.getLast?_eq_getLast cfs h]
  rfl

theorem residual_bond_split (p : ℚ) (cfs : List (ℚ × ℚ)) (c : Curve) (h : cfs ≠ []) :
    residual (.bond p cfs) c =
      (p : ℝ) - pvInter c cfs -
        ((cfs.getLast h).2 : ℝ) * discountFactor c (cfs.getLast h).1 := by
  have hsum : (cfs.map fun ta => (ta.2 : ℝ) * discountFactor c ta.1).sum =
      (cfs.dropLast.map fun ta => (ta.2 : ℝ) * discountFactor c ta.1).sum +
        ((cfs.getLast h).2 : ℝ) * discountFactor c (cfs.getLast h).1 := by
    conv_lhs => rw [← List.dropLast_append_getLast h]
    rw [List.map_append, List.sum_append]
    simp
  rw [residual, hsum, pvInter]
  ring

theorem go_reprices :
    ∀ (pending : List RateHelper) (c cf : Curve),
      go c pending = .ok cf →
      List.Pairwise NodeLT c.nodes →
      c.nodes ≠ [] →
      (∀ nd ∈ c.nodes, (0 : ℝ) < nd.2) →
      (∀ h ∈ pending, lastTime c.nodes < maturityTime h) →
      List.Pairwise HelperLT pending →
      (∀ h ∈ pending, ∀ ta ∈ interCashflows h, ta.1 ≤ lastTime c.nodes ∨
        ∃ h' ∈ pending, HelperLT h' h ∧ ta.1 ≤ maturityTime h') →
      ∀ h ∈ pending, residual h cf = 0
  | [], _, _, _, _, _, _, _, _, _ => by
      intro h hmem
      simp at hmem
  | h :: rest, c, cf, hok, hpc, hne, hpos, hpend, hpw, hcond => by
      have hT : lastTime c.nodes < maturityTime h := hpend h (List.mem_cons_self _ _)
      rw [go] at hok
      cases hsol : solveNode c h with
      | error e => rw [hsol] at hok; exact absurd hok (by simp [bind, Except.bind])
      | ok df =>
          rw [hsol] at hok
          simp only [bind, Except.bind] at hok
          have happ : appendNode c (maturityTime h) df =
              .ok ⟨c.itp, c.nodes ++ [(maturityTime h, df)]⟩ := by
            rw [appendNode, insertNode_atEnd c.nodes hpc (maturityTime h) df hT]
            rfl
          rw [happ] at hok
          simp only at hok
          set c' : Curve := ⟨c.itp, c.nodes ++ [(maturityTime h, df)]⟩ with hc'
          have hdfpos : (0 : ℝ) < df := solveNode_ok_pos c h df hsol
          have hp' : List.Pairwise NodeLT c'.nodes := by
            refine List.pairwise_append.mpr ⟨hpc, List.pairwise_singleton _ _, ?_⟩
            intro a ha b hb
            rw [List.mem_singleton] at hb
            subst hb
            exact lt_of_le_of_lt (times_le_lastTime c.nodes hpc a ha) hT
          have hne' : c'.nodes ≠ [] := by simp [hc']
          have hpos' : ∀ nd ∈ c'.nodes, (0 : ℝ) < nd.2 := by
            intro nd hnd
            rcases List.mem_append.mp hnd with hold | hnew
            · exact hpos nd hold
            · rw [List.mem_singleton] at hnew
              subst hnew
              exact hdfpos
          have hlast' : lastTime c'.nodes = maturityTime h := lastTime_concat _ _ _
          have hpend' : ∀ h' ∈ rest, lastTime c'.nodes < maturityTime h' := by
            intro h' hh'
            rw [hlast']
            exact (List.pairwise_cons.mp hpw).1 h' hh'
          have hpw' := (List.pairwise_cons.mp hpw).2
          obtain ⟨_, _, _, _, _, _, hlocf⟩ :=
            go_ok rest c' cf hok hp' hne' hpos' hpend' hpw'
          have hknot : discountFactor c' (maturityTime h) = df := by
            show dfNodes c.itp (c.nodes ++ [(maturityTime h, df)]) (maturityTime h) = df
            exact dfNodes_knot c.itp _ hp' (maturityTime h) df
              (List.mem_append_right _ (List.mem_singleton_self _)) hdfpos
          have hcfT : discountFactor cf (maturityTime h) = df := by
            rw [hlocf (maturityTime h) (le_of_eq hlast'.symm), hknot]
          have hlocOld : ∀ t : ℚ, t ≤ lastTime c.nodes → discountFactor cf t = discountFactor c t := by
            intro t ht
            rw [hlocf t (by rw [hlast']; exact le_trans ht hT.le)]
            show dfNodes c.itp (c.nodes ++ [(maturityTime h, df)]) t = dfNodes c.itp c.nodes t
            exact dfNodes_append_of_le c.itp c.nodes hne (maturityTime h) df t ht
          intro h0 hmem0
          rcases List.mem_cons.mp hmem0 with heq0 | hmemr
          · subst heq0
            have hArg : ∀ ta ∈ interCashflows h0, ta.1 ≤ lastTime c.nodes := by
              intro ta hta
              rcases hcond h0 (List.mem_cons_self _ _) ta hta with h1 | ⟨h', hh', hlt', _⟩
              · exact h1
              · exfalso
                rcases List.mem_cons.mp hh' with heq' | hh'r
                · subst heq'; exact lt_irrefl _ hlt'
                · exact lt_asymm hlt' ((List.pairwise_cons.mp hpw).1 h' hh'r)
            cases h0 with
            | deposit r m =>
                obtain ⟨hgz, hdf⟩ := solveNode_deposit_ok c r m df hsol
                rw [residual]
                have hm : discountFactor cf m = df := hcfT
                rw [hm, hdf, ← Rat.cast_mul, mul_inv_cancel₀ (ne_of_gt hgz), Rat.cast_one,
                  sub_self]
            | bond p cfs =>
                obtain ⟨hcfpos, hcfs, hdf, _, _⟩ := solveNode_bond_ok c p cfs df hsol
                rw [residual_bond_split p cfs cf hcfs]
                have hlastEq : (cfs.getLast hcfs).1 = maturityTime (.bond p cfs) :=
                  (maturity_bond_getLast p cfs hcfs).symm
                have hdfT : discountFactor cf (cfs.getLast hcfs).1 = df := by
                  rw [hlastEq]; exact hcfT
                have hpv : pvInter cf cfs = pvInter c cfs := by
                  rw [pvInter, pvInter]
                  congr 1
                  refine List.map_congr_left ?_
                  intro ta hta
                  have hta' : ta ∈ interCashflows (.bond p cfs) := hta
                  rw [hlocOld ta.1 (hArg ta hta')]
                have hlcf : ((cfs.getLast hcfs).2 : ℝ) = (lastCF cfs : ℝ) := by
                  rw [lastCF_getLast cfs hcfs]
                have hlcfne : ((lastCF cfs : ℚ) : ℝ) ≠ 0 := by
                  exact_mod_cast ne_of_gt hcfpos
                rw [hdfT, hpv, hlcf, hdf, mul_div_cancel₀ _ hlcfne, sub_self]
          · have hcond' : ∀ hr ∈ rest, ∀ ta ∈ interCashflows hr,
                ta.1 ≤ lastTime c'.nodes ∨
                  ∃ h' ∈ rest, HelperLT h' hr ∧ ta.1 ≤ maturityTime h' := by
              intro hr hhr ta hta
              rcases hcond hr (List.mem_cons_of_mem _ hhr) ta hta with h1 | ⟨h', hh', hlt', hle'⟩
              · left; rw [hlast']; exact le_trans h1 hT.le
              · rcases List.mem_cons.mp hh' with heq' | hh'r
                · left; rw [hlast', ← heq']; exact hle'
                · right; exact ⟨h', hh'r, hlt', hle'⟩
            exact go_reprices rest c' cf hok hp' hne' hpos' hpend' hpw' hcond' h0 hmemr

theorem sortHelpers_exDeposits : sortHelpers exDeposits = exDeposits := by
  simp [sortHelpers, exDeposits, List.insertionSort, List.orderedInsert, maturityTime]
  norm_num

theorem bootstrap_exDeposits (itp : Interp) : bootstrap itp exDeposits = .ok (exCurve itp) := by
  have hval : ∀ h ∈ exDeposits, 0 < maturityTime h := by
    intro h hh
    fin_cases hh <;> norm_num [maturityTime]
  have hnd : (exDeposits.map maturityTime).Nodup := by
    norm_num [exDeposits, maturityTime]
  rw [bootstrap, if_neg (not_not_intro hval), if_neg (not_not_intro hnd), sortHelpers_exDeposits]
  norm_num [go, solveNode, appendNode, insertNode, initCurve, maturityTime, exDeposits,
    exCurve, bind, Except.bind, Except.map]

theorem sortHelpers_witHelpers : sortHelpers witHelpers = witHelpers := by
  simp [sortHelpers, witHelpers, List.insertionSort, List.orderedInsert, maturityTime]
  norm_num

theorem bootstrap_witHelpers : bootstrap .linear witHelpers = .ok witCurve := by
  have hval : ∀ h ∈ witHelpers, 0 < maturityTime h := by
    intro h hh
    fin_cases hh <;> norm_num [maturityTime]
  have hnd : (witHelpers.map maturityTime).Nodup := by
    norm_num [witHelpers, maturityTime]
  rw [bootstrap, if_neg (not_not_intro hval), if_neg (not_not_intro hnd), sortHelpers_witHelpers]
  norm_num [go, solveNode, appendNode, insertNode, initCurve, maturityTime, witHelpers,
    witCurve, bind, Except.bind, Except.map, pvInter, lastCF, dfNodes, interpAt,
    discountFactor, extrapAt]

theorem sortHelpers_cexHelpers : sortHelpers cexHelpers = cexHelpers := by
  simp [sortHelpers, cexHelpers, List.insertionSort, List.orderedInsert, maturityTime]
  norm_num

theorem bootstrap_cexHelpers : bootstrap .linear cexHelpers = .ok cexCurve := by
  have hval : ∀ h ∈ cexHelpers, 0 < maturityTime h := by
    intro h hh
    fin_cases hh <;> norm_num [maturityTime]
  have hnd : (cexHelpers.map maturityTime).Nodup := by
    norm_num [cexHelpers, maturityTime]
  rw [bootstrap, if_neg (not_not_intro hval), if_neg (not_not_intro hnd), sortHelpers_cexHelpers]
  have h2 : (((1/2 : ℚ) / (1/4 : ℚ) : ℚ) : ℝ) = ((2 : ℕ) : ℝ) := by norm_num
  norm_num [go, solveNode, appendNode, insertNode, initCurve, maturityTime, cexHelpers,
    cexCurve, bind, Except.bind, Except.map, pvInter, lastCF, dfNodes, interpAt,
    discountFactor, extrapAt, h2, Real.rpow_natCast]

theorem residual_bond_cexCurve :
    residual (.bond 100 [(1/2, 3), (1, 103)]) cexCurve = ((19300/1050703 : ℚ) : ℝ) := by
  norm_num [residual, cexCurve, discountFactor, dfNodes, interpAt]

/-- C1 (counterexample): exact repricing fails for a valid helper set in
which a bond's intermediate cashflow lies beyond every earlier node.  The
two helpers have positive, distinct maturities and the bootstrap succeeds,
yet the bond's residual against the finished curve is `19300/1050703`,
far above the claimed `1e-8` bound: the cashflow at 6 months is discounted
by flat extrapolation during the solve but by interpolation afterwards. -/
theorem c1_counterexample :
    bootstrap .linear cexHelpers = .ok cexCurve ∧
      (1e-8 : ℝ) ≤ |residual (.bond 100 [(1/2, 3), (1, 103)]) cexCurve| := by
  refine ⟨bootstrap_cexHelpers, ?_⟩
  rw [residual_bond_cexCurve]
  rw [abs_of_pos (by positivity)]
  push_cast
  norm_num

/-- C1 (amended): after a successful bootstrap, every helper whose
non-final cashflow times each fall at or before some strictly
earlier-maturing helper's maturity reprices exactly: its residual against
the finished curve is zero, hence below `1e-8` in price units. -/
theorem c1_exact_repricing (itp : Interp) (hs : List RateHelper) (c : Curve)
    (hok : bootstrap itp hs = .ok c)
    (hcf : ∀ h ∈ hs, ∀ ta ∈ interCashflows h,
      ∃ h' ∈ hs, HelperLT h' h ∧ ta.1 ≤ maturityTime h') :
    ∀ h ∈ hs, residual h c = 0 ∧ |residual h c| < 1e-8 := by
  obtain ⟨hval, hnd, hgo⟩ := bootstrap_ok_elim itp hs c hok
  have hpend : ∀ h ∈ sortHelpers hs, lastTime (initCurve itp).nodes < maturityTime h := by
    intro h hh
    exact hval h (mem_sortHelpers.mp hh)
  have hcond : ∀ h ∈ sortHelpers hs, ∀ ta ∈ interCashflows h,
      ta.1 ≤ lastTime (initCurve itp).nodes ∨
        ∃ h' ∈ sortHelpers hs, HelperLT h' h ∧ ta.1 ≤ maturityTime h' := by
    intro h hh ta hta
    right
    obtain ⟨h', hh', hlt, hle⟩ := hcf h (mem_sortHelpers.mp hh) ta hta
    exact ⟨h', mem_sortHelpers.mpr hh', hlt, hle⟩
  have hz := go_reprices (sortHelpers hs) (initCurve itp) c hgo
    (List.pairwise_singleton _ _) (by simp [initCurve])
    (by intro nd hnd2; simp [initCurve] at hnd2; simp [hnd2]) hpend
    (sortHelpers_pairwise hs hnd) hcond
  intro h hh
  have hz0 := hz h (mem_sortHelpers.mpr hh)
  refine ⟨hz0, ?_⟩
  rw [hz0]
  norm_num

/-- C1 (witness): the repricing theorem applied to a deposit plus a bond
whose intermediate cashflow falls on the deposit node. -/
theorem c1_exact_repricing_witness :
    residual (.deposit (21/400) (1/2)) witCurve = 0 ∧
      residual (.bond 100 [(1/2, 3), (1, 103)]) witCurve = 0 := by
  have hcf : ∀ h ∈ witHelpers, ∀ ta ∈ interCashflows h,
      ∃ h' ∈ witHelpers, HelperLT h' h ∧ ta.1 ≤ maturityTime h' := by
    intro h hh ta hta
    fin_cases hh
    · simp [interCashflows] at hta
    · simp [interCashflows] at hta
      subst hta
      refine ⟨.deposit (21/400) (1/2), by simp [witHelpers], ?_, ?_⟩
      · norm_num [HelperLT, maturityTime]
      · norm_num [maturityTime]
  have h1 := c1_exact_repricing .linear witHelpers witCurve bootstrap_witHelpers hcf
  exact ⟨(h1 _ (by simp [witHelpers])).1, (h1 _ (by simp [witHelpers])).1⟩

/-- C2 (counterexample): bootstrapping the spec's two-deposit scenario does
give `discountFactor(0.5) = 1/(1 + 0.0525×0.5) = 800/821`, but that value is
`0.974421…`, strictly below the decimal `0.97446…` the claim quotes for it. -/
theorem c2_counterexample :
    bootstrap .linear exDeposits = .ok (exCurve .linear) ∧
      discountFactor (exCurve .linear) (1/2) = ((800/821 : ℚ) : ℝ) ∧
      ((800/821 : ℚ) : ℝ) < 0.97446 := by
  refine ⟨bootstrap_exDeposits .linear, ?_, by push_cast; norm_num⟩
  norm_num [discountFactor, exCurve, dfNodes, interpAt]

/-- C2 (amended): a deposit's implied discount factor is exactly
`1/(1 + rate·τ)` with no root-finding, and bootstrapping the 6-month 5.25%
and 12-month 5.5% deposits yields `discountFactor(0.5) = 1/1.02625 =
0.97442…` and `discountFactor(1.0) = 1/1.055 = 0.94786…` (for every
interpolation strategy). -/
theorem c2_deposit_scenario :
    (∀ (c : Curve) (r m : ℚ), 0 < 1 + r * m →
        solveNode c (.deposit r m) = .ok (((1 + r * m)⁻¹ : ℚ) : ℝ)) ∧
    (∀ itp, bootstrap itp exDeposits = .ok (exCurve itp)) ∧
    (∀ itp, discountFactor (exCurve itp) (1/2) = ((800/821 : ℚ) : ℝ)) ∧
    (∀ itp, discountFactor (exCurve itp) 1 = ((200/211 : ℚ) : ℝ)) ∧
    ((800/821 : ℚ) : ℝ) = (((1 + (21/400) * (1/2))⁻¹ : ℚ) : ℝ) ∧
    ((200/211 : ℚ) : ℝ) = (((1 + (11/200) * 1)⁻¹ : ℚ) : ℝ) ∧
    (0.97442 ≤ ((800/821 : ℚ) : ℝ) ∧ ((800/821 : ℚ) : ℝ) < 0.97443) ∧
    (0.94786 ≤ ((200/211 : ℚ) : ℝ) ∧ ((200/211 : ℚ) : ℝ) < 0.94787) := by
  have hpw : List.Pairwise NodeLT (exCurve .linear).nodes := by
    simp [exCurve, NodeLT, List.pairwise_cons]
    norm_num
  refine ⟨?_, bootstrap_exDeposits, ?_, ?_, by norm_num, by norm_num,
    ⟨by push_cast; norm_num, by push_cast; norm_num⟩,
    ⟨by push_cast; norm_num, by push_cast; norm_num⟩⟩
  · intro c r m h
    rw [solveNode, if_neg (not_le.mpr h)]
  · intro itp
    refine dfNodes_knot itp _ ?_ (1/2) _ (by simp [exCurve]) (by positivity)
    simp [exCurve, NodeLT, List.pairwise_cons]
    norm_num
  · intro itp
    refine dfNodes_knot itp _ ?_ 1 _ (by simp [exCurve]) (by positivity)
    simp [exCurve, NodeLT, List.pairwise_cons]
    norm_num

/-- C2 (witness): the closed-form deposit solve at the scenario's 6-month
helper. -/
theorem c2_deposit_scenario_witness :
    solveNode (initCurve .linear) (.deposit (21/400) (1/2)) =
      .ok (((1 + (21/400) * (1/2))⁻¹ : ℚ) : ℝ) :=
  c2_deposit_scenario.1 (initCurve .linear) (21/400) (1/2) (by norm_num)

/-- C3: for a bond helper with strictly positive cashflows, the §4.1
residual is linear in the unknown node discount factor with coefficient
`−CF_last`; its unique root is `(price − Σ CF_i·DF(t_i)) / CF_last`; the
per-node solve returns exactly that root; and the residual function
evaluated at the curve's own discount factor coincides with the repricing
residual. -/
theorem c3_bond_linear_solve (c : Curve) (p : ℚ) (cfs : List (ℚ × ℚ))
    (hne : cfs ≠ []) (hpos : ∀ ta ∈ cfs, 0 < ta.2) :
    (∀ x y : ℝ, bondResidualFn c p cfs x - bondResidualFn c p cfs y =
        -(lastCF cfs : ℝ) * (x - y)) ∧
    (∀ x : ℝ, bondResidualFn c p cfs x = 0 ↔
        x = ((p : ℝ) - pvInter c cfs) / (lastCF cfs : ℝ)) ∧
    (∀ df : ℝ, solveNode c (.bond p cfs) = .ok df →
        df = ((p : ℝ) - pvInter c cfs) / (lastCF cfs : ℝ)) ∧
    bondResidualFn c p cfs (discountFactor c (maturityTime (.bond p cfs))) =
      residual (.bond p cfs) c := by
  have hlast : 0 < lastCF cfs := by
    rw [lastCF_getLast cfs hne]
    exact hpos _ (List.getLast_mem hne)
  have hlastR : ((lastCF cfs : ℚ) : ℝ) ≠ 0 := by
    exact_mod_cast ne_of_gt hlast
  refine ⟨?_, ?_, ?_, ?_⟩
  · intro x y
    rw [bondResidualFn, bondResidualFn]
    ring
  · intro x
    rw [bondResidualFn]
    constructor
    · intro h
      field_simp
      linarith
    · intro h
      subst h
      field_simp
  · intro df hok
    exact (solveNode_bond_ok c p cfs df hok).2.2.1
  · rw [residual_bond_split p cfs c hne, bondResidualFn,
      lastCF_getLast cfs hne, maturity_bond_getLast p cfs hne]

/-- C3 (witness): the one-year two-cashflow bond against the bare reference
curve prices its node at `(100 − 3)/103 = 97/103`, where the residual
vanishes. -/
theorem c3_bond_linear_solve_witness :
    bondResidualFn (initCurve .linear) 100 [(1/2, 3), (1, 103)] ((97 : ℝ)/103) = 0 := by
  refine ((c3_bond_linear_solve (initCurve .linear) 100 [(1/2, 3), (1, 103)]
    (by simp) (by intro ta hta; fin_cases hta <;> norm_num)).2.1 ((97 : ℝ)/103)).mpr ?_
  norm_num [pvInter, initCurve, discountFactor, dfNodes, extrapAt, lastCF]

/-- C4: curve construction is all-or-nothing.  Every bootstrap run either
aborts with an error or returns a curve whose knots are exactly the
reference node followed by one node per helper in maturity order (never a
partially-populated curve); and the first failing per-node solve aborts the
whole run with its error. -/
theorem c4_all_or_nothing :
    (∀ (itp : Interp) (hs : List RateHelper),
      (∃ e, bootstrap itp hs = .error e) ∨
        ∃ c, bootstrap itp hs = .ok c ∧
          c.nodes.map Prod.fst = 0 :: (sortHelpers hs).map maturityTime ∧
          c.nodes.length = hs.length + 1) ∧
    (∀ (c : Curve) (h : RateHelper) (rest : List RateHelper) (e : Err),
      solveNode c h = .error e → go c (h :: rest) = .error e) := by
  constructor
  · intro itp hs
    cases hres : bootstrap itp hs with
    | error e => exact Or.inl ⟨e, rfl⟩
    | ok c =>
        right
        obtain ⟨_, _, _, _, hmap, _, _⟩ := bootstrap_ok_spec itp hs c hres
        refine ⟨c, rfl, hmap, ?_⟩
        have hlen : c.nodes.length = (c.nodes.map Prod.fst).length :=
          (List.length_map _ _).symm
        rw [hlen, hmap]
        simp [sortHelpers, (List.perm_insertionSort _ hs).length_eq]
  · intro c h rest e hsol
    rw [go, hsol]
    rfl

/-- C4 (witness): a bond with a non-positive final cashflow aborts the run
with `NegativeCashflowError`. -/
theorem c4_all_or_nothing_witness :
    go (initCurve .linear) [.bond 100 [(1, -5)]] = .error .negativeCashflow :=
  c4_all_or_nothing.2 (initCurve .linear) (.bond 100 [(1, -5)]) [] .negativeCashflow
    (by norm_num [solveNode, lastCF])

/-- C5: helpers resolving to the same maturity time make the bootstrap fail
with `DuplicateMaturityError`, and a bootstrap can succeed only when all
resolved maturity times are pairwise distinct. -/
theorem c5_duplicate_maturity :
    (∀ (itp : Interp) (hs : List RateHelper),
      (∀ h ∈ hs, 0 < maturityTime h) → ¬ (hs.map maturityTime).Nodup →
        bootstrap itp hs = .error .duplicateMaturity) ∧
    (∀ (itp : Interp) (hs : List RateHelper) (c : Curve),
      bootstrap itp hs = .ok c → (hs.map maturityTime).Nodup) := by
  constructor
  · intro itp hs hval hdup
    rw [bootstrap, if_neg (not_not_intro hval), if_pos hdup]
  · intro itp hs c hok
    exact (bootstrap_ok_elim itp hs c hok).2.1

/-- C5 (witness): two deposits both maturing at exactly 0.5 years are
rejected with `DuplicateMaturityError`. -/
theorem c5_duplicate_maturity_witness :
    bootstrap .linear [.deposit (21/400) (1/2), .deposit (11/200) (1/2)] =
      .error .duplicateMaturity := by
  refine c5_duplicate_maturity.1 .linear _ ?_ ?_
  · intro h hh
    fin_cases hh <;> norm_num [maturityTime]
  · norm_num [maturityTime]

/-- C6: on every bootstrapped curve, for every positive time inside the
curve domain and every frequency, converting the discount factor to a zero
rate and compounding it back reproduces the discount factor within `1e-12`,
both under periodic compounding `DF = (1 + r/f)^(−f·t)` and under continuous
compounding `DF = e^{−r·t}`. -/
theorem c6_zero_rate_roundtrip (itp : Interp) (hs : List RateHelper) (c : Curve)
    (t f : ℚ) (hok : bootstrap itp hs = .ok c) (ht : 0 < t)
    (_hdom : t ≤ lastTime c.nodes) (hf : 0 < f) :
    |(1 + zeroRateCompounded c f t / (f : ℝ)) ^ (-((f : ℝ) * (t : ℝ))) -
        discountFactor c t| < 1e-12 ∧
    |Real.exp (-(zeroRateContinuous c t * (t : ℝ))) - discountFactor c t| < 1e-12 := by
  obtain ⟨_, hpw, _, hpos, _, _, _⟩ := bootstrap_ok_spec itp hs c hok
  have hdf : 0 < discountFactor c t := dfNodes_pos c.itp c.nodes hpw hpos t
  have hfR : ((f : ℚ) : ℝ) ≠ 0 := by exact_mod_cast ne_of_gt hf
  have htR : ((t : ℚ) : ℝ) ≠ 0 := by exact_mod_cast ne_of_gt ht
  constructor
  · rw [zeroRateCompounded, mul_div_cancel_left₀ _ hfR, add_sub_cancel,
      ← Real.rpow_mul hdf.le]
    have hexp : -(1 / ((f : ℝ) * (t : ℝ))) * -((f : ℝ) * (t : ℝ)) = 1 := by
      field_simp
    rw [hexp, Real.rpow_one, sub_self, abs_zero]
    norm_num
  · rw [zeroRateContinuous, neg_div, neg_mul, neg_neg, div_mul_cancel₀ _ htR,
      Real.exp_log hdf, sub_self, abs_zero]
    norm_num

/-- C6 (witness): the round trip at the two-deposit curve, six months,
semiannual frequency. -/
theorem c6_zero_rate_roundtrip_witness :
    |(1 + zeroRateCompounded (exCurve .linear) 2 (1/2) / ((2 : ℚ) : ℝ)) ^
        (-(((2 : ℚ) : ℝ) * ((1/2 : ℚ) : ℝ))) -
          discountFactor (exCurve .linear) (1/2)| < 1e-12 ∧
    |Real.exp (-(zeroRateContinuous (exCurve .linear) (1/2) * ((1/2 : ℚ) : ℝ))) -
        discountFactor (exCurve .linear) (1/2)| < 1e-12 :=
  c6_zero_rate_roundtrip .linear exDeposits (exCurve .linear) (1/2) 2
    (bootstrap_exDeposits .linear) (by norm_num)
    (by simp [exCurve, lastTime]; norm_num) (by norm_num)

/-- C7: the reference date carries the node `(0, 1)`, so `discountFactor 0`
is exactly 1 for the initial curve, for any curve reached by successful
`appendNode` operations, and for every bootstrapped curve. -/
theorem c7_reference_node :
    (∀ c : Curve, Built c → discountFactor c 0 = 1) ∧
    (∀ (itp : Interp) (hs : List RateHelper) (c : Curve),
      bootstrap itp hs = .ok c → discountFactor c 0 = 1) := by
  have hbuilt : ∀ c : Curve, Built c → discountFactor c 0 = 1 := by
    intro c hb
    obtain ⟨hpw, hmem⟩ := built_inv c hb
    exact dfNodes_knot c.itp c.nodes hpw 0 1 hmem one_pos
  refine ⟨hbuilt, ?_⟩
  intro itp hs c hok
  obtain ⟨_, _, hgo⟩ := bootstrap_ok_elim itp hs c hok
  exact hbuilt c (go_built (sortHelpers hs) (initCurve itp) c (Built.base itp) hgo)

/-- C7 (witness): the identity at the bare reference curve and at the
bootstrapped two-deposit curve. -/
theorem c7_reference_node_witness :
    discountFactor (initCurve .linear) 0 = 1 ∧ discountFactor (exCurve .linear) 0 = 1 :=
  ⟨c7_reference_node.1 _ (Built.base .linear),
   c7_reference_node.2 .linear exDeposits _ (bootstrap_exDeposits .linear)⟩

theorem bisect_ok_spec :
    ∀ (f : ℝ → ℝ) (tol : ℝ) (fuel : ℕ) (lo hi x : ℝ) (k : ℕ),
      bisect f tol fuel lo hi = .ok (x, k) → |f x| < tol ∧ 1 ≤ k ∧ k ≤ fuel
  | f, tol, 0, lo, hi, x, k, h => by simp [bisect] at h
  | f, tol, fuel + 1, lo, hi, x, k, h => by
      rw [bisect] at h
      by_cases h1 : |f ((lo + hi) / 2)| < tol
      · rw [if_pos h1] at h
        simp only [Except.ok.injEq, Prod.mk.injEq] at h
        obtain ⟨hx, hk⟩ := h
        subst hx; subst hk
        exact ⟨h1, le_refl 1, Nat.le_add_left 1 fuel⟩
      · rw [if_neg h1] at h
        by_cases h2 : f lo * f ((lo + hi) / 2) ≤ 0
        · rw [if_pos h2] at h
          cases hrec : bisect f tol fuel lo ((lo + hi) / 2) with
          | ok xk =>
              obtain ⟨x', k'⟩ := xk
              rw [hrec] at h
              simp only [Except.ok.injEq, Prod.mk.injEq] at h
              obtain ⟨hx, hk⟩ := h
              subst hx; subst hk
              obtain ⟨ha, hb, hc⟩ := bisect_ok_spec f tol fuel lo ((lo + hi) / 2) x' k' hrec
              exact ⟨ha, Nat.le_succ_of_le hb, Nat.succ_le_succ hc⟩
          | error e => rw [hrec] at h; exact absurd h (by simp)
        · rw [if_neg h2] at h
          cases hrec : bisect f tol fuel ((lo + hi) / 2) hi with
          | ok xk =>
              obtain ⟨x', k'⟩ := xk
              rw [hrec] at h
              simp only [Except.ok.injEq, Prod.mk.injEq] at h
              obtain ⟨hx, hk⟩ := h
              subst hx; subst hk
              obtain ⟨ha, hb, hc⟩ := bisect_ok_spec f tol fuel ((lo + hi) / 2) hi x' k' hrec
              exact ⟨ha, Nat.le_succ_of_le hb, Nat.succ_le_succ hc⟩
          | error e => rw [hrec] at h; exact absurd h (by simp)

theorem bisect_error_spec :
    ∀ (f : ℝ → ℝ) (tol : ℝ) (fuel : ℕ) (lo hi : ℝ) (e : Err),
      bisect f tol fuel lo hi = .error e → e = .unsolvableNode
  | f, tol, 0, lo, hi, e, h => by
      rw [bisect] at h
      simp only [Except.error.injEq] at h
      exact h.symm
  | f, tol, fuel + 1, lo, hi, e, h => by
      rw [bisect] at h
      by_cases h1 : |f ((lo + hi) / 2)| < tol
      · rw [if_pos h1] at h; exact absurd h (by simp)
      · rw [if_neg h1] at h
        by_cases h2 : f lo * f ((lo + hi) / 2) ≤ 0
        · rw [if_pos h2] at h
          cases hrec : bisect f tol fuel lo ((lo + hi) / 2) with
          | ok xk => obtain ⟨x', k'⟩ := xk; rw [hrec] at h; exact absurd h (by simp)
          | error e' =>
              rw [hrec] at h
              simp only [Except.error.injEq] at h
              exact h ▸ bisect_error_spec f tol fuel lo ((lo + hi) / 2) e' hrec
        · rw [if_neg h2] at h
          cases hrec : bisect f tol fuel ((lo + hi) / 2) hi with
          | ok xk => obtain ⟨x', k'⟩ := xk; rw [hrec] at h; exact absurd h (by simp)
          | error e' =>
              rw [hrec] at h
              simp only [Except.error.injEq] at h
              exact h ▸ bisect_error_spec f tol fuel ((lo + hi) / 2) hi e' hrec

/-- C8: the bounded root-find caps its work.  A successful bisection run
performs at most as many iterations as its fuel and lands inside the
tolerance; the spec's solve (bracket `[1e-6, 10]`, tolerance `1e-10`, cap
100) therefore either converges within 100 iterations or signals
`UnsolvableNodeError`; and the bootstrap as a whole always returns either a
curve or an error. -/
theorem c8_bounded_iteration :
    (∀ (f : ℝ → ℝ) (tol : ℝ) (fuel : ℕ) (lo hi x : ℝ) (k : ℕ),
        bisect f tol fuel lo hi = .ok (x, k) → |f x| < tol ∧ k ≤ fuel) ∧
    (∀ (f : ℝ → ℝ) (x : ℝ) (k : ℕ),
        solveByBisection f = .ok (x, k) → |f x| < 1e-10 ∧ k ≤ 100) ∧
    (∀ f : ℝ → ℝ, solveByBisection f = .error .unsolvableNode ∨
        ∃ x k, solveByBisection f = .ok (x, k) ∧ |f x| < 1e-10 ∧ k ≤ 100) ∧
    (∀ (itp : Interp) (hs : List RateHelper),
        (∃ c, bootstrap itp hs = .ok c) ∨ ∃ e, bootstrap itp hs = .error e) := by
  have hok : ∀ (f : ℝ → ℝ) (x : ℝ) (k : ℕ),
      solveByBisection f = .ok (x, k) → |f x| < 1e-10 ∧ k ≤ 100 := by
    intro f x k h
    rw [solveByBisection] at h
    by_cases hb : f 1e-6 * f 10 ≤ 0
    · rw [if_pos hb] at h
      obtain ⟨ha, _, hc⟩ := bisect_ok_spec f 1e-10 100 1e-6 10 x k h
      exact ⟨ha, hc⟩
    · rw [if_neg hb] at h
      exact absurd h (by simp)
  refine ⟨?_, hok, ?_, ?_⟩
  · intro f tol fuel lo hi x k h
    obtain ⟨ha, _, hc⟩ := bisect_ok_spec f tol fuel lo hi x k h
    exact ⟨ha, hc⟩
  · intro f
    cases hres : solveByBisection f with
    | error e =>
        left
        have he : e = .unsolvableNode := by
          rw [solveByBisection] at hres
          by_cases hb : f 1e-6 * f 10 ≤ 0
          · rw [if_pos hb] at hres
            exact bisect_error_spec f 1e-10 100 1e-6 10 e hres
          · rw [if_neg hb] at hres
            simp only [Except.error.injEq] at hres
            exact hres.symm
        rw [he]
    | ok xk =>
        obtain ⟨x, k⟩ := xk
        exact Or.inr ⟨x, k, rfl, hok f x k hres⟩
  · intro itp hs
    cases hres : bootstrap itp hs with
    | error e => exact Or.inr ⟨e, rfl⟩
    | ok c => exact Or.inl ⟨c, rfl⟩

/-- C8 (witness): on the zero residual function the solve brackets at once
and converges in a single iteration. -/
theorem c8_bounded_iteration_witness :
    |(fun _ : ℝ => (0 : ℝ)) ((1e-6 + 10) / 2)| < 1e-10 ∧ 1 ≤ 100 := by
  refine c8_bounded_iteration.2.1 (fun _ => (0 : ℝ)) ((1e-6 + 10) / 2) 1 ?_
  rw [solveByBisection, if_pos (by norm_num), show (100 : ℕ) = 99 + 1 from rfl, bisect,
    if_pos (by norm_num)]

/-- C10: the zero-rate query is total at the reference point: at `t = 0`,
where the defining relation cannot determine a rate, both the compounded and
the continuous conversion return the finite value 0 for every curve. -/
theorem c10_zero_rate_at_zero :
    ∀ (c : Curve) (f : ℚ),
      zeroRateCompounded c f 0 = 0 ∧ zeroRateContinuous c 0 = 0 := by
  intro c f
  constructor
  · rw [zeroRateCompounded]
    norm_num
  · rw [zeroRateContinuous]
    norm_num

/-- C9: the notebook's two embeddings of the bond price agree.  The manual
closed form `3/1.005^0.5 + 103/1.007` equals the curve-based NPV obtained by
discounting the coupon and redemption off the linearly interpolated zero
curve built from spot rates [0.0, 0.005, 0.007] — exactly, hence within
`1e-12` — and both lie within `1e-8` of `105.2765399249068`. -/
theorem c9_bond_price_agreement :
    manualBondPrice = fixedRateBondNPV ∧
    |manualBondPrice - fixedRateBondNPV| < 1e-12 ∧
    |manualBondPrice - 105.2765399249068| < 1e-8 := by
  have hz1 : spotZeroRate (1/2) = 0.005 := by
    rw [spotZeroRate, if_pos (by norm_num)]
    norm_num
  have hz2 : spotZeroRate 1 = 0.007 := by
    rw [spotZeroRate, if_neg (by norm_num)]
    norm_num
  have hxpos : (0 : ℝ) < (1.005 : ℝ) ^ ((1/2 : ℝ)) :=
    Real.rpow_pos_of_pos (by norm_num) _
  have hmanual : manualBondPrice = 3 / (1.005 : ℝ) ^ ((1/2 : ℝ)) + 103 / 1.007 := by
    rw [manualBondPrice]
    norm_num
  have hnpv : fixedRateBondNPV = 3 * ((1.005 : ℝ) ^ ((1/2 : ℝ)))⁻¹ + 103 * (1.007 : ℝ)⁻¹ := by
    rw [fixedRateBondNPV, couponAmount, spotDF, spotDF, hz1, hz2]
    have h1 : (1 + 0.005 : ℝ) ^ (-(1/2 : ℝ)) = ((1.005 : ℝ) ^ ((1/2 : ℝ)))⁻¹ := by
      rw [Real.rpow_neg (by norm_num)]
      norm_num
    have h2 : (1 + 0.007 : ℝ) ^ (-(1 : ℝ)) = (1.007 : ℝ)⁻¹ := by
      rw [Real.rpow_neg (by norm_num), Real.rpow_one]
      norm_num
    rw [h1, h2]
    norm_num
  have heq : manualBondPrice = fixedRateBondNPV := by
    rw [hmanual, hnpv, div_eq_mul_inv, div_eq_mul_inv]
    norm_num
  refine ⟨heq, by rw [heq, sub_self, abs_zero]; norm_num, ?_⟩
  have hx2 : (1.005 : ℝ) ^ ((1/2 : ℝ)) * (1.005 : ℝ) ^ ((1/2 : ℝ)) = 1.005 := by
    rw [← Real.rpow_add (by norm_num : (0:ℝ) < 1.005)]
    norm_num
  set x : ℝ := (1.005 : ℝ) ^ ((1/2 : ℝ)) with hxdef
  have hlo : (1.0024968827 : ℝ) < x := by nlinarith
  have hhi : x < (1.0024968828 : ℝ) := by nlinarith
  have h3lo : (3 : ℝ)/1.0024968828 < 3/x :=
    div_lt_div_of_pos_left (by norm_num) hxpos hhi
  have h3hi : (3 : ℝ)/x < 3/1.0024968827 :=
    div_lt_div_of_pos_left (by norm_num) (by norm_num) hlo
  rw [hmanual, abs_lt]
  constructor
  · nlinarith [h3lo]
  · nlinarith [h3hi]

end Karuth
